import Mathlib

/-!
Shallow embedding of the streaming byte-transformation utility in
`homework/cmd/main.go` (a `dd`-like tool): offset skip, block-wise bounded
reads, an ordered chain of byte conversions, and a deferred-write
accumulation buffer for the blockSize=1 + trim_spaces configuration.

Byte sequences are modelled as `List Nat` (byte values).  The Go case
conversions go through `strings.ToUpper` / `strings.ToLower` on the text
interpretation of the bytes; they are embedded here at ASCII fidelity
(the mapping both implementations agree on for single-byte ASCII text,
identity elsewhere), and `strings.TrimSpace` with the ASCII whitespace
class of `unicode.IsSpace`.  uint64 subtraction in `calculateReadSize`
is modelled with an explicit wrap modulo 2^64.
-/

namespace DdCore

/-- ASCII-fidelity model of the per-byte effect of `strings.ToUpper`. -/
def asciiToUpper (b : Nat) : Nat :=
  if 97 ≤ b ∧ b ≤ 122 then b - 32 else b

/-- ASCII-fidelity model of the per-byte effect of `strings.ToLower`. -/
def asciiToLower (b : Nat) : Nat :=
  if 65 ≤ b ∧ b ≤ 90 then b + 32 else b

/-- ASCII whitespace class of `unicode.IsSpace`: tab, LF, VT, FF, CR, space. -/
def asciiIsSpace (b : Nat) : Bool :=
  b == 9 || b == 10 || b == 11 || b == 12 || b == 13 || b == 32

/-- `upperCase` from main.go: `strings.ToUpper` over the data. -/
def upperCase (data : List Nat) : List Nat :=
  data.map asciiToUpper

/-- `lowerCase` from main.go: `strings.ToLower` over the data. -/
def lowerCase (data : List Nat) : List Nat :=
  data.map asciiToLower

/-- `trimSpaces` from main.go: inputs of byte length ≤ 2 are returned
unchanged, otherwise `strings.TrimSpace` (strip leading and trailing
whitespace, interior untouched). -/
def trimSpaces (data : List Nat) : List Nat :=
  if data.length ≤ 2 then data
  else (data.dropWhile asciiIsSpace).rdropWhile asciiIsSpace

/-- `Convers` from main.go: dispatch a conversion name to its transform;
unknown names are identity passthrough. -/
def Convers (data : List Nat) (conv : String) : List Nat :=
  if conv = "upper_case" then upperCase data
  else if conv = "lower_case" then lowerCase data
  else if conv = "trim_spaces" then trimSpaces data
  else data

/-- `applyConversions` from main.go: early return on the empty list, else
fold the conversions over the data in input order. -/
def applyConversions (data : List Nat) (conversions : List String) : List Nat :=
  match conversions with
  | [] => data
  | _ :: _ => conversions.foldl Convers data

/-- Helper to express test inputs: the bytes of an ASCII string. -/
def bytesOfString (s : String) : List Nat :=
  s.toList.map Char.toNat

/-- `Options` from main.go (the `From`/`To` file selectors are external
I/O setup and carry no pipeline semantics). All numeric flags are uint64. -/
structure Options where
  offset : Nat
  limit : Nat
  blockSize : Nat
  conv : List String
deriving Repr, DecidableEq

/-- `defaultBlockSize` from main.go. -/
def defaultBlockSize : Nat := 4096

/-- The working-buffer length chosen in `newProcessingContext`:
`opts.BlockSize`, with 0 replaced by the default. -/
def effBlockSize (opts : Options) : Nat :=
  if opts.blockSize = 0 then defaultBlockSize else opts.blockSize

/-- The mutable part of `ProcessingContext`: the running read count, the
trim accumulation buffer, and (as the model of the sink) the bytes
written so far. -/
structure LoopSt where
  totalRead : Nat
  trimBuffer : List Nat
  out : List Nat
deriving Repr, DecidableEq

/-- `calculateReadSize` from main.go: the working-buffer length, capped by
`Limit - totalRead` (uint64 wraparound subtraction) when a limit is set. -/
def calculateReadSize (opts : Options) (bufLen totalRead : Nat) : Nat :=
  let readSize := bufLen
  if 0 < opts.limit then
    let remaining := (opts.limit + 2 ^ 64 - totalRead) % 2 ^ 64
    if remaining < readSize then remaining else readSize
  else readSize

/-- The read-result from `src.Read`: clean end of stream, or any other
read failure. `none` stands for a nil error. -/
inductive ReadErr where
  | eof : ReadErr
  | other (msg : String) : ReadErr
deriving Repr, DecidableEq

/-- The body of `readAndProcess` from main.go after the `src.Read` call
returned the bytes `chunk`: if any bytes were read, either append them to
the trim accumulation buffer (blockSize 1 and trim_spaces requested) or
convert and write them immediately, and advance `totalRead`. -/
def routeChunk (opts : Options) (st : LoopSt) (chunk : List Nat) : LoopSt :=
  if 0 < chunk.length then
    if opts.blockSize = 1 ∧ "trim_spaces" ∈ opts.conv then
      { st with trimBuffer := st.trimBuffer ++ chunk,
                totalRead := st.totalRead + chunk.length }
    else
      { st with out := st.out ++ applyConversions chunk opts.conv,
                totalRead := st.totalRead + chunk.length }
  else st

/-- `readAndProcess` from main.go as a function of the pair returned by
`src.Read`: the bytes read are processed first, then the read error (nil,
EOF or other) is returned to the caller unchanged. -/
def readAndProcess (opts : Options) (st : LoopSt) (chunk : List Nat)
    (err : Option ReadErr) : LoopSt × Option ReadErr :=
  (routeChunk opts st chunk, err)

/-- `finalizeTrimProcessing` from main.go: under the blockSize 1 +
trim_spaces policy, if the accumulation buffer is non-empty, convert the
whole buffer and write it once. -/
def finalizeTrimProcessing (opts : Options) (st : LoopSt) : LoopSt :=
  if opts.blockSize = 1 ∧ "trim_spaces" ∈ opts.conv ∧ 0 < st.trimBuffer.length then
    { st with out := st.out ++ applyConversions st.trimBuffer opts.conv }
  else st

/-- The read loop of `processData` from main.go, run against a
deterministic list-backed source (the model of a well-behaved reader such
as an `os.File` or `bytes.Reader`: a read of `toRead` bytes returns
`min toRead src.length` bytes and a nil error, and reports `io.EOF` with
zero bytes once the source is empty).  The Go `for {}` loop is embedded
with a fuel argument; each iteration that recurses consumes at least one
source byte, so `src.length + 1` fuel is always enough.  Returns the
final state and the unconsumed rest of the source. -/
def processLoop (opts : Options) (bufLen : Nat) :
    Nat → List Nat → LoopSt → LoopSt × List Nat
  | 0, src, st => (st, src)
  | fuel + 1, src, st =>
    let toRead := calculateReadSize opts bufLen st.totalRead
    if toRead = 0 then (st, src)
    else
      match src with
      | [] => (st, [])
      | _ :: _ =>
        let chunk := src.take toRead
        processLoop opts bufLen fuel (src.drop toRead)
          (readAndProcess opts st chunk none).1

/-- `processData` from main.go over a list-backed source: run the read
loop from a fresh context, then the finalize phase.  Returns the final
state and the unconsumed rest of the source. -/
def processDataRun (src : List Nat) (opts : Options) : LoopSt × List Nat :=
  let r := processLoop opts (effBlockSize opts) (src.length + 1) src ⟨0, [], []⟩
  (finalizeTrimProcessing opts r.1, r.2)

/-- The bytes `processData` writes to the sink for a list-backed source. -/
def processData (src : List Nat) (opts : Options) : List Nat :=
  (processDataRun src opts).1.out

/-- `skipBytes` from main.go: `io.CopyN(io.Discard, src, int64(offset))`.
The uint64 offset is converted to int64 first: for offset ≥ 2^63 the
count is negative, so `io.CopyN` returns `(0, nil)` at once (its
`LimitReader` reports EOF immediately, and neither of CopyN's shortfall
checks fires for a negative count) and the skip succeeds without
discarding anything.  For 0 < offset < 2^63, CopyN discards exactly
`offset` bytes and fails if the source is exhausted first.  With
offset 0, CopyN is not called and the source is untouched. -/
def skipBytes (src : List Nat) (offset : Nat) : Except String (List Nat) :=
  if 0 < offset then
    if 2 ^ 63 ≤ offset then .ok src
    else if src.length < offset then .error "cannot skip offset"
    else .ok (src.drop offset)
  else .ok src

/-- `Process` from main.go: skip phase, then the read-process-write and
finalize phases.  Returns the bytes written to the sink. -/
def Process (src : List Nat) (opts : Options) : Except String (List Nat) :=
  match skipBytes src opts.offset with
  | .error e => .error e
  | .ok rest => .ok (processData rest opts)

/-- The flag-scanning loop of `validateOptions` from main.go: walk the
conversion names, record upper/lower flags, reject unknown names. -/
def checkConvFlags : List String → Bool → Bool → Except String (Bool × Bool)
  | [], hasUpper, hasLower => .ok (hasUpper, hasLower)
  | v :: rest, hasUpper, hasLower =>
    if v = "upper_case" then checkConvFlags rest true hasLower
    else if v = "lower_case" then checkConvFlags rest hasUpper true
    else if v = "trim_spaces" then checkConvFlags rest hasUpper hasLower
    else .error ("unknown conversion type: " ++ v)

/-- `validateOptions` from main.go: every name must be known, and
upper_case and lower_case are mutually exclusive. -/
def validateOptions (options : Options) : Except String Unit :=
  match checkConvFlags options.conv false false with
  | .error e => .error e
  | .ok (hasUpper, hasLower) =>
    if hasLower && hasUpper then
      .error "cannot use both upper_case and lower_case conversion types"
    else .ok ()

/-- The `main` control flow restricted to the core: options are validated
(inside `ParseFlags`) before any I/O, and only then does `Process` touch
the source and sink. -/
def runMain (opts : Options) (src : List Nat) : Except String (List Nat) :=
  match validateOptions opts with
  | .error e => .error ("invalid options: " ++ e)
  | .ok _ => Process src opts

/-- The read loop of `processData` run against a scripted reader: a list
of `(chunk, err)` responses, one per `src.Read` call, so that a single
call may return bytes together with an error, as `io.Reader` permits.
Once the script is exhausted the reader reports a clean EOF.  Mirrors the
loop dispatch of main.go: `io.EOF` breaks the loop, any other error
aborts with the "read data error" context; the second component is the
fatal error, if any. -/
def processLoopScript (opts : Options) (bufLen : Nat) :
    List (List Nat × Option ReadErr) → LoopSt → LoopSt × Option String
  | [], st => (st, none)
  | (chunk, err) :: rest, st =>
    let toRead := calculateReadSize opts bufLen st.totalRead
    if toRead = 0 then (st, none)
    else
      match readAndProcess opts st chunk err with
      | (st2, none) => processLoopScript opts bufLen rest st2
      | (st2, some .eof) => (st2, none)
      | (st2, some (.other m)) => (st2, some ("read data error: " ++ m))

/-- `processData` against a scripted reader: on a fatal loop error the
function returns before the finalize phase; otherwise finalize runs. -/
def processDataScript (opts : Options)
    (script : List (List Nat × Option ReadErr)) : LoopSt × Option String :=
  let r := processLoopScript opts (effBlockSize opts) script ⟨0, [], []⟩
  match r.2 with
  | some e => (r.1, some e)
  | none => (finalizeTrimProcessing opts r.1, none)

/-! ### Helper lemmas about the conversion engine -/

theorem rdropWhile_append_rtakeWhile (p : Nat → Bool) (l : List Nat) :
    l.rdropWhile p ++ l.rtakeWhile p = l := by
  simp [List.rdropWhile, List.rtakeWhile, ← List.reverse_append,
    List.takeWhile_append_dropWhile]

theorem asciiToUpper_idem (b : Nat) :
    asciiToUpper (asciiToUpper b) = asciiToUpper b := by
  unfold asciiToUpper; split_ifs <;> omega

theorem asciiToLower_idem (b : Nat) :
    asciiToLower (asciiToLower b) = asciiToLower b := by
  unfold asciiToLower; split_ifs <;> omega

theorem Convers_nil (c : String) : Convers [] c = [] := by
  unfold Convers; split_ifs <;> rfl

theorem applyConversions_eq_foldl (d : List Nat) (convs : List String) :
    applyConversions d convs = convs.foldl Convers d := by
  cases convs <;> rfl

theorem applyConversions_nil (convs : List String) :
    applyConversions [] convs = [] := by
  rw [applyConversions_eq_foldl]
  induction convs with
  | nil => rfl
  | cons c cs ih => rw [List.foldl_cons, Convers_nil]; exact ih

/-! ### Claim theorems for the conversion engine -/

/-- C3: `trimSpaces` returns inputs of length 0, 1 or 2 unchanged; on
longer inputs it strips leading and trailing whitespace (the result is a
contiguous segment of the input, the removed margins are all whitespace,
and the result itself starts and ends with non-whitespace), leaving
interior whitespace untouched; the length-3 input "  a" yields "a". -/
theorem trimSpaces_boundary_and_strip :
    (∀ d : List Nat, d.length ≤ 2 → trimSpaces d = d) ∧
    (∀ d : List Nat, 3 ≤ d.length →
      (∃ pre post, d = pre ++ trimSpaces d ++ post ∧
        (∀ b ∈ pre, asciiIsSpace b = true) ∧
        (∀ b ∈ post, asciiIsSpace b = true)) ∧
      (∀ b, (trimSpaces d).head? = some b → asciiIsSpace b = false) ∧
      (∀ b, (trimSpaces d).getLast? = some b → asciiIsSpace b = false)) ∧
    trimSpaces (bytesOfString "  a") = bytesOfString "a" := by
  refine ⟨fun d h => by simp [trimSpaces, h], fun d h => ?_, by decide⟩
  have hnot : ¬ d.length ≤ 2 := by omega
  have htrim :
      trimSpaces d = (d.dropWhile asciiIsSpace).rdropWhile asciiIsSpace := by
    simp [trimSpaces, hnot]
  refine ⟨⟨d.takeWhile asciiIsSpace,
      (d.dropWhile asciiIsSpace).rtakeWhile asciiIsSpace, ?_, ?_, ?_⟩, ?_, ?_⟩
  · rw [htrim]
    conv_lhs => rw [← List.takeWhile_append_dropWhile asciiIsSpace d]
    rw [List.append_assoc, rdropWhile_append_rtakeWhile]
  · exact fun b hb => List.mem_takeWhile_imp hb
  · exact fun b hb => List.mem_rtakeWhile_imp hb
  · intro b hb
    rw [htrim] at hb
    obtain ⟨t, ht⟩ := List.rdropWhile_prefix asciiIsSpace (d.dropWhile asciiIsSpace)
    rcases hres : (d.dropWhile asciiIsSpace).rdropWhile asciiIsSpace with _ | ⟨a, rest⟩
    · rw [hres] at hb; simp at hb
    · rw [hres] at hb
      simp only [List.head?_cons, Option.some_inj] at hb
      rw [hres] at ht
      have hd : d.dropWhile asciiIsSpace = a :: (rest ++ t) := by rw [← ht]; simp
      have hw : d.dropWhile asciiIsSpace ≠ [] := by rw [hd]; simp
      have hh := List.head_dropWhile_not asciiIsSpace d hw
      rw [show (d.dropWhile asciiIsSpace).head hw = a from by simp [hd]] at hh
      rw [← hb]; exact hh
  · intro b hb
    rw [htrim] at hb
    have hne : (d.dropWhile asciiIsSpace).rdropWhile asciiIsSpace ≠ [] := by
      intro hnil; rw [hnil] at hb; simp at hb
    have hl := List.rdropWhile_last_not asciiIsSpace (d.dropWhile asciiIsSpace) hne
    rw [List.getLast?_eq_getLast _ hne, Option.some_inj] at hb
    rw [hb] at hl
    simpa using hl

/-- Witness for C3 at concrete inputs. -/
theorem trimSpaces_boundary_and_strip_witness :
    trimSpaces [32, 104] = [32, 104] ∧
    (∃ pre post, [32, 32, 104, 32, 105, 32] =
      pre ++ trimSpaces [32, 32, 104, 32, 105, 32] ++ post ∧
      (∀ b ∈ pre, asciiIsSpace b = true) ∧
      (∀ b ∈ post, asciiIsSpace b = true)) :=
  ⟨trimSpaces_boundary_and_strip.1 [32, 104] (by decide),
   (trimSpaces_boundary_and_strip.2.1 [32, 32, 104, 32, 105, 32] (by decide)).1⟩

/-- C5: `applyConversions` folds the conversions over the data
left-to-right in exactly the listed order, and the empty conversion list
is the identity. -/
theorem applyConversions_order :
    (∀ d : List Nat, applyConversions d [] = d) ∧
    (∀ (d : List Nat) (c : String) (cs : List String),
      applyConversions d (c :: cs) = applyConversions (Convers d c) cs) := by
  refine ⟨fun d => rfl, fun d c cs => ?_⟩
  cases cs <;> rfl

/-- C8: `upperCase` and `lowerCase` are idempotent on every input, and
`trimSpaces` is idempotent on every already-trimmed input (no leading or
trailing whitespace to strip). -/
theorem conversions_idempotent :
    (∀ d : List Nat, upperCase (upperCase d) = upperCase d) ∧
    (∀ d : List Nat, lowerCase (lowerCase d) = lowerCase d) ∧
    (∀ d : List Nat, d.dropWhile asciiIsSpace = d →
      d.rdropWhile asciiIsSpace = d →
      trimSpaces (trimSpaces d) = trimSpaces d) := by
  refine ⟨fun d => ?_, fun d => ?_, fun d h1 h2 => ?_⟩
  · simp [upperCase, List.map_map, Function.comp_def, asciiToUpper_idem]
  · simp [lowerCase, List.map_map, Function.comp_def, asciiToLower_idem]
  · have hfix : trimSpaces d = d := by
      by_cases hlen : d.length ≤ 2
      · simp [trimSpaces, hlen]
      · simp [trimSpaces, hlen, h1, h2]
    rw [hfix]; exact hfix

/-- Witness for C8 at a concrete already-trimmed input. -/
theorem conversions_idempotent_witness :
    [104, 32, 105].dropWhile asciiIsSpace = [104, 32, 105] ∧
    trimSpaces (trimSpaces [104, 32, 105]) = trimSpaces [104, 32, 105] :=
  ⟨by decide, conversions_idempotent.2.2 [104, 32, 105] (by decide) (by decide)⟩

/-- C9: on inputs made only of ASCII letters, `upperCase` followed by
`lowerCase` agrees with `lowerCase` applied directly. -/
theorem upper_then_lower_roundtrip (d : List Nat)
    (h : ∀ b ∈ d, (65 ≤ b ∧ b ≤ 90) ∨ (97 ≤ b ∧ b ≤ 122)) :
    lowerCase (upperCase d) = lowerCase d := by
  unfold lowerCase upperCase
  rw [List.map_map]
  apply List.map_congr_left
  intro b hb
  have hball := h b hb
  simp only [Function.comp_apply, asciiToUpper, asciiToLower]
  split_ifs <;> omega

/-- Witness for C9 on the letters "Hi". -/
theorem upper_then_lower_roundtrip_witness :
    lowerCase (upperCase [72, 105]) = lowerCase [72, 105] :=
  upper_then_lower_roundtrip [72, 105] (by decide)

/-! ### Helper lemmas about validation -/

theorem checkConvFlags_fst_mono :
    ∀ (cs : List String) (hl : Bool) (p : Bool × Bool),
      checkConvFlags cs true hl = .ok p → p.1 = true := by
  intro cs
  induction cs with
  | nil =>
    intro hl p h
    simp only [checkConvFlags, Except.ok.injEq] at h
    rw [← h]
  | cons v rest ih =>
    intro hl p h
    unfold checkConvFlags at h
    split_ifs at h with h1 h2 h3
    · exact ih _ _ h
    · exact ih _ _ h
    · exact ih _ _ h

theorem checkConvFlags_snd_mono :
    ∀ (cs : List String) (hu : Bool) (p : Bool × Bool),
      checkConvFlags cs hu true = .ok p → p.2 = true := by
  intro cs
  induction cs with
  | nil =>
    intro hu p h
    simp only [checkConvFlags, Except.ok.injEq] at h
    rw [← h]
  | cons v rest ih =>
    intro hu p h
    unfold checkConvFlags at h
    split_ifs at h with h1 h2 h3
    · exact ih _ _ h
    · exact ih _ _ h
    · exact ih _ _ h

theorem checkConvFlags_mem_upper :
    ∀ (cs : List String) (hu hl : Bool) (p : Bool × Bool),
      "upper_case" ∈ cs → checkConvFlags cs hu hl = .ok p → p.1 = true := by
  intro cs
  induction cs with
  | nil => intro hu hl p hmem; simp at hmem
  | cons v rest ih =>
    intro hu hl p hmem h
    unfold checkConvFlags at h
    split_ifs at h with h1 h2 h3
    · exact checkConvFlags_fst_mono _ _ _ h
    · refine ih _ _ _ ?_ h
      rcases List.mem_cons.mp hmem with heq | hin
      · exact absurd heq.symm h1
      · exact hin
    · refine ih _ _ _ ?_ h
      rcases List.mem_cons.mp hmem with heq | hin
      · exact absurd heq.symm h1
      · exact hin

theorem checkConvFlags_mem_lower :
    ∀ (cs : List String) (hu hl : Bool) (p : Bool × Bool),
      "lower_case" ∈ cs → checkConvFlags cs hu hl = .ok p → p.2 = true := by
  intro cs
  induction cs with
  | nil => intro hu hl p hmem; simp at hmem
  | cons v rest ih =>
    intro hu hl p hmem h
    unfold checkConvFlags at h
    split_ifs at h with h1 h2 h3
    · refine ih _ _ _ ?_ h
      rcases List.mem_cons.mp hmem with heq | hin
      · exact absurd (heq.trans h1) (by decide)
      · exact hin
    · exact checkConvFlags_snd_mono _ _ _ h
    · refine ih _ _ _ ?_ h
      rcases List.mem_cons.mp hmem with heq | hin
      · exact absurd heq.symm h2
      · exact hin

/-! ### Claim theorems for validation and the skip phase -/

/-- C6: a conversion list containing both upper_case and lower_case is
rejected by `validateOptions`, and the whole run then fails at option
parsing with the same configuration error, for every source — no byte is
read and nothing is written. -/
theorem both_cases_rejected (opts : Options)
    (hup : "upper_case" ∈ opts.conv) (hlo : "lower_case" ∈ opts.conv) :
    ∃ e, validateOptions opts = .error e ∧
      ∀ src, runMain opts src = .error ("invalid options: " ++ e) := by
  cases hc : checkConvFlags opts.conv false false with
  | error e =>
    refine ⟨e, ?_, fun src => ?_⟩
    · unfold validateOptions; rw [hc]
    · unfold runMain validateOptions; rw [hc]
  | ok p =>
    obtain ⟨pu, pl⟩ := p
    have h1 := checkConvFlags_mem_upper opts.conv false false _ hup hc
    have h2 := checkConvFlags_mem_lower opts.conv false false _ hlo hc
    simp only at h1 h2
    subst h1; subst h2
    refine ⟨"cannot use both upper_case and lower_case conversion types", ?_, fun src => ?_⟩
    · unfold validateOptions; rw [hc]; rfl
    · unfold runMain validateOptions; rw [hc]; rfl

/-- Witness for C6 at a concrete conflicting configuration. -/
theorem both_cases_rejected_witness :
    ∃ e, validateOptions ⟨0, 0, 0, ["upper_case", "lower_case"]⟩ = .error e ∧
      ∀ src, runMain ⟨0, 0, 0, ["upper_case", "lower_case"]⟩ src =
        .error ("invalid options: " ++ e) :=
  both_cases_rejected ⟨0, 0, 0, ["upper_case", "lower_case"]⟩
    (by decide) (by decide)

/-- Counterexample to C7 as stated: at offset 2^63 (negative after the
uint64→int64 conversion fed to `io.CopyN`) with a 3-byte source, the
offset is positive and the source is exhausted long before `offset`
bytes could be discarded, yet the skip phase succeeds and discards
nothing instead of failing with an error. -/
theorem skipBytes_wrap_counterexample :
    0 < (2 ^ 63 : Nat) ∧ ([1, 2, 3] : List Nat).length < 2 ^ 63 ∧
    skipBytes [1, 2, 3] (2 ^ 63) = .ok [1, 2, 3] :=
  ⟨by norm_num, by norm_num, rfl⟩

/-- C7 (amended): with offset 0 the skip phase leaves the source
untouched.  For int64-representable positive offsets (0 < offset < 2^63)
it fails with a propagated error when the source holds fewer than
`offset` bytes (and so does the whole `Process` run, before any
processing), and every successful skip discards exactly `offset` leading
bytes.  For offset ≥ 2^63 the int64 count handed to `io.CopyN` is
negative, so the skip succeeds and discards nothing. -/
theorem skipBytes_spec (src : List Nat) :
    skipBytes src 0 = .ok src ∧
    (∀ offset, 0 < offset → offset < 2 ^ 63 → src.length < offset →
      ∃ e, skipBytes src offset = .error e) ∧
    (∀ offset out, offset < 2 ^ 63 → skipBytes src offset = .ok out →
      ∃ pre, src = pre ++ out ∧ pre.length = offset) ∧
    (∀ opts : Options, 0 < opts.offset → opts.offset < 2 ^ 63 →
      src.length < opts.offset → ∃ e, Process src opts = .error e) ∧
    (∀ offset, 2 ^ 63 ≤ offset → offset < 2 ^ 64 →
      skipBytes src offset = .ok src) := by
  refine ⟨by simp [skipBytes], fun offset h1 h63 h2 => ?_,
    fun offset out h63 hok => ?_, fun opts h1 h63 h2 => ?_,
    fun offset h63 h64 => ?_⟩
  · refine ⟨"cannot skip offset", ?_⟩
    unfold skipBytes
    rw [if_pos h1, if_neg (by omega), if_pos h2]
  · unfold skipBytes at hok
    split_ifs at hok with ha hb hc
    · exact absurd hb (by omega)
    · simp only [Except.ok.injEq] at hok
      refine ⟨src.take offset, ?_, ?_⟩
      · rw [← hok]; exact (List.take_append_drop offset src).symm
      · rw [List.length_take]; omega
    · simp only [Except.ok.injEq] at hok
      rw [← hok]
      refine ⟨[], by simp, ?_⟩
      simp only [List.length_nil]
      omega
  · unfold Process skipBytes
    rw [if_pos h1, if_neg (by omega), if_pos h2]
    exact ⟨_, rfl⟩
  · unfold skipBytes
    rw [if_pos (by omega), if_pos h63]

/-- Witness for C7 (amended): skipping 5 bytes of a 3-byte source fails,
a successful 2-byte skip discards exactly the 2 leading bytes, and an
offset of 2^63 succeeds leaving the source intact. -/
theorem skipBytes_spec_witness :
    (∃ e, skipBytes [1, 2, 3] 5 = .error e) ∧
    (∃ pre, [1, 2, 3] = pre ++ [3] ∧ pre.length = 2) ∧
    skipBytes [1, 2, 3] (2 ^ 63) = .ok [1, 2, 3] :=
  ⟨(skipBytes_spec [1, 2, 3]).2.1 5 (by decide) (by norm_num) (by decide),
   (skipBytes_spec [1, 2, 3]).2.2.1 2 [3] (by norm_num) rfl,
   (skipBytes_spec [1, 2, 3]).2.2.2.2 (2 ^ 63) (by norm_num) (by norm_num)⟩

/-! ### Helper lemmas about the read loop -/

theorem readAndProcess_fst (opts : Options) (st : LoopSt) (chunk : List Nat)
    (err : Option ReadErr) :
    (readAndProcess opts st chunk err).1 = routeChunk opts st chunk := rfl

theorem calculateReadSize_limit_zero (opts : Options) (bufLen t : Nat)
    (h : opts.limit = 0) : calculateReadSize opts bufLen t = bufLen := by
  simp [calculateReadSize, h]

theorem calculateReadSize_eq (opts : Options) (bufLen t : Nat)
    (h0 : 0 < opts.limit) (h64 : opts.limit < 2 ^ 64) (hle : t ≤ opts.limit) :
    calculateReadSize opts bufLen t = min bufLen (opts.limit - t) := by
  simp only [calculateReadSize]
  rw [if_pos h0]
  split_ifs with h <;> omega

theorem routeChunk_totalRead (opts : Options) (st : LoopSt) (chunk : List Nat) :
    (routeChunk opts st chunk).totalRead = st.totalRead + chunk.length := by
  unfold routeChunk
  split_ifs with h1 h2
  · rfl
  · rfl
  · omega

theorem routeChunk_trim (opts : Options) (st : LoopSt) (chunk : List Nat)
    (h : opts.blockSize = 1 ∧ "trim_spaces" ∈ opts.conv) (hc : chunk ≠ []) :
    routeChunk opts st chunk =
      { st with trimBuffer := st.trimBuffer ++ chunk,
                totalRead := st.totalRead + chunk.length } := by
  unfold routeChunk
  rw [if_pos (List.length_pos.mpr hc), if_pos h]

theorem routeChunk_stream (opts : Options) (st : LoopSt) (chunk : List Nat)
    (h : ¬(opts.blockSize = 1 ∧ "trim_spaces" ∈ opts.conv)) (hc : chunk ≠ []) :
    routeChunk opts st chunk =
      { st with out := st.out ++ applyConversions chunk opts.conv,
                totalRead := st.totalRead + chunk.length } := by
  unfold routeChunk
  rw [if_pos (List.length_pos.mpr hc), if_neg h]

theorem finalizeTrim_totalRead (opts : Options) (st : LoopSt) :
    (finalizeTrimProcessing opts st).totalRead = st.totalRead := by
  unfold finalizeTrimProcessing
  split_ifs <;> rfl

theorem finalizeTrim_trimBuffer (opts : Options) (st : LoopSt) :
    (finalizeTrimProcessing opts st).trimBuffer = st.trimBuffer := by
  unfold finalizeTrimProcessing
  split_ifs <;> rfl

theorem effBlockSize_pos (opts : Options) : 0 < effBlockSize opts := by
  unfold effBlockSize defaultBlockSize
  split_ifs <;> omega

theorem processLoop_zero (opts : Options) (bufLen : Nat) (src : List Nat)
    (st : LoopSt) : processLoop opts bufLen 0 src st = (st, src) := rfl

theorem processLoop_succ_stop (opts : Options) (bufLen fuel : Nat)
    (src : List Nat) (st : LoopSt)
    (h : calculateReadSize opts bufLen st.totalRead = 0) :
    processLoop opts bufLen (fuel + 1) src st = (st, src) := by
  cases src with
  | nil => rw [processLoop.eq_2]; simp [h]
  | cons a tl => rw [processLoop.eq_3]; simp [h]

theorem processLoop_succ_nil (opts : Options) (bufLen fuel : Nat) (st : LoopSt)
    (h : calculateReadSize opts bufLen st.totalRead ≠ 0) :
    processLoop opts bufLen (fuel + 1) [] st = (st, []) := by
  rw [processLoop.eq_2]
  simp [h]

theorem processLoop_succ_cons (opts : Options) (bufLen fuel : Nat) (a : Nat)
    (tl : List Nat) (st : LoopSt)
    (h : calculateReadSize opts bufLen st.totalRead ≠ 0) :
    processLoop opts bufLen (fuel + 1) (a :: tl) st =
      processLoop opts bufLen fuel
        ((a :: tl).drop (calculateReadSize opts bufLen st.totalRead))
        (routeChunk opts st
          ((a :: tl).take (calculateReadSize opts bufLen st.totalRead))) := by
  rw [processLoop.eq_3]
  simp [h, readAndProcess_fst]

/-! ### Claim theorems about the read loop -/

/-- C4: when a positive limit is set, each read requests exactly
`min(blockSize, limit - totalRead)` bytes, the loop stops as soon as that
quantity is zero, and `totalRead` never exceeds the limit: it is bounded
by the limit at every state of the run (every reachable state is the
start state of some tail of the loop, and the bound is preserved from any
such state). -/
theorem totalRead_bounded_by_limit (opts : Options) (bufLen : Nat)
    (h0 : 0 < opts.limit) (h64 : opts.limit < 2 ^ 64) :
    (∀ t, t ≤ opts.limit →
      calculateReadSize opts bufLen t = min bufLen (opts.limit - t)) ∧
    (∀ fuel src st, calculateReadSize opts bufLen st.totalRead = 0 →
      processLoop opts bufLen (fuel + 1) src st = (st, src)) ∧
    (∀ fuel src st, st.totalRead ≤ opts.limit →
      (processLoop opts bufLen fuel src st).1.totalRead ≤ opts.limit) := by
  refine ⟨fun t ht => calculateReadSize_eq opts bufLen t h0 h64 ht,
    fun fuel src st h => processLoop_succ_stop opts bufLen fuel src st h,
    fun fuel => ?_⟩
  induction fuel with
  | zero => intro src st h; exact h
  | succ n ih =>
    intro src st h
    by_cases htr : calculateReadSize opts bufLen st.totalRead = 0
    · rw [processLoop_succ_stop opts bufLen n src st htr]; exact h
    · cases src with
      | nil => rw [processLoop_succ_nil opts bufLen n st htr]; exact h
      | cons a tl =>
        rw [processLoop_succ_cons opts bufLen n a tl st htr]
        apply ih
        rw [routeChunk_totalRead]
        have hcalc := calculateReadSize_eq opts bufLen st.totalRead h0 h64 h
        have hlen := List.length_take (calculateReadSize opts bufLen st.totalRead) (a :: tl)
        omega

/-- Witness for C4: a 3-byte-block run over an 11-byte source with
limit 7 keeps totalRead within the limit. -/
theorem totalRead_bounded_by_limit_witness :
    (processLoop ⟨0, 7, 3, []⟩ 3 12 (bytesOfString "hello world")
      ⟨0, [], []⟩).1.totalRead ≤ 7 :=
  (totalRead_bounded_by_limit ⟨0, 7, 3, []⟩ 3 (by decide) (by decide)).2.2
    12 (bytesOfString "hello world") ⟨0, [], []⟩ (by decide)

theorem processLoop_consumption (opts : Options) (bufLen : Nat)
    (h0 : 0 < opts.limit) (h64 : opts.limit < 2 ^ 64) (hbuf : 0 < bufLen) :
    ∀ (fuel : Nat) (src : List Nat) (st : LoopSt),
      src.length < fuel → st.totalRead ≤ opts.limit →
      (processLoop opts bufLen fuel src st).1.totalRead
          = st.totalRead + min (opts.limit - st.totalRead) src.length ∧
      (processLoop opts bufLen fuel src st).2
          = src.drop (min (opts.limit - st.totalRead) src.length) := by
  intro fuel
  induction fuel with
  | zero => intro src st hf hle; exact absurd hf (by omega)
  | succ n ih =>
    intro src st hf hle
    have hcalc := calculateReadSize_eq opts bufLen st.totalRead h0 h64 hle
    by_cases htr : calculateReadSize opts bufLen st.totalRead = 0
    · rw [processLoop_succ_stop opts bufLen n src st htr]
      have hmin : min (opts.limit - st.totalRead) src.length = 0 := by omega
      rw [hmin, List.drop_zero]
      exact ⟨by simp, rfl⟩
    · cases src with
      | nil =>
        rw [processLoop_succ_nil opts bufLen n st htr]
        simp
      | cons a tl =>
        rw [processLoop_succ_cons opts bufLen n a tl st htr]
        have hlen := List.length_take (calculateReadSize opts bufLen st.totalRead) (a :: tl)
        have hfuel : ((a :: tl).drop (calculateReadSize opts bufLen st.totalRead)).length < n := by
          rw [List.length_drop]
          simp only [List.length_cons] at hf ⊢
          omega
        have hle2 : (routeChunk opts st
            ((a :: tl).take (calculateReadSize opts bufLen st.totalRead))).totalRead
              ≤ opts.limit := by
          rw [routeChunk_totalRead]
          omega
        obtain ⟨ih1, ih2⟩ := ih _ _ hfuel hle2
        have hdlen := List.length_drop (calculateReadSize opts bufLen st.totalRead) (a :: tl)
        constructor
        · rw [ih1, routeChunk_totalRead, hdlen, hlen]
          simp only [List.length_cons] at *
          omega
        · rw [ih2, routeChunk_totalRead, List.drop_drop, hdlen, hlen]
          by_cases hcl : calculateReadSize opts bufLen st.totalRead ≤ (a :: tl).length
          · have heq : calculateReadSize opts bufLen st.totalRead +
                min (opts.limit -
                  (st.totalRead + min (calculateReadSize opts bufLen st.totalRead)
                    (a :: tl).length))
                  ((a :: tl).length - calculateReadSize opts bufLen st.totalRead)
                = min (opts.limit - st.totalRead) (a :: tl).length := by
              omega
            rw [heq]
          · rw [List.drop_eq_nil_of_le (by omega)]
            exact (List.drop_eq_nil_of_le (by omega)).symm

/-- C2: for every error-free run with a positive limit, the number of
bytes consumed from the source after the offset skip equals
`min(limit, bytes available after the offset)` — stated both through the
final `totalRead` counter (which counts exactly the bytes routed to the
streaming writes or to the finalize flush, pre-conversion) and through
the shrinkage of the source. -/
theorem limit_bounds_bytes_consumed (src : List Nat) (opts : Options)
    (h0 : 0 < opts.limit) (h64 : opts.limit < 2 ^ 64) :
    (processDataRun src opts).1.totalRead = min opts.limit src.length ∧
    src.length - (processDataRun src opts).2.length = min opts.limit src.length := by
  have hbuf := effBlockSize_pos opts
  obtain ⟨h1, h2⟩ := processLoop_consumption opts (effBlockSize opts) h0 h64 hbuf
    (src.length + 1) src ⟨0, [], []⟩ (by omega) (by simp)
  simp only at h1 h2
  unfold processDataRun
  constructor
  · rw [finalizeTrim_totalRead, h1]
    simp
  · rw [h2, List.length_drop]
    have := Nat.min_le_right opts.limit src.length
    simp only [Nat.sub_zero] at *
    omega

/-- Witness for C2: limit 5 on an 11-byte source consumes exactly 5 bytes. -/
theorem limit_bounds_bytes_consumed_witness :
    (processDataRun (bytesOfString "hello world") ⟨0, 5, 4096, []⟩).1.totalRead
      = min 5 (bytesOfString "hello world").length :=
  (limit_bounds_bytes_consumed (bytesOfString "hello world") ⟨0, 5, 4096, []⟩
    (by decide) (by decide)).1

theorem processLoop_trim_acc (opts : Options) (bufLen : Nat)
    (h1 : opts.blockSize = 1) (h2 : "trim_spaces" ∈ opts.conv) :
    ∀ (fuel : Nat) (src : List Nat) (st : LoopSt), ∃ k,
      processLoop opts bufLen fuel src st =
        ({ totalRead := st.totalRead + k,
           trimBuffer := st.trimBuffer ++ src.take k,
           out := st.out }, src.drop k) := by
  intro fuel
  induction fuel with
  | zero =>
    intro src st
    exact ⟨0, by simp [processLoop_zero]⟩
  | succ n ih =>
    intro src st
    by_cases htr : calculateReadSize opts bufLen st.totalRead = 0
    · exact ⟨0, by rw [processLoop_succ_stop opts bufLen n src st htr]; simp⟩
    · cases src with
      | nil => exact ⟨0, by rw [processLoop_succ_nil opts bufLen n st htr]; simp⟩
      | cons a tl =>
        rw [processLoop_succ_cons opts bufLen n a tl st htr]
        rw [routeChunk_trim opts st _ ⟨h1, h2⟩ (by simp [List.take_eq_nil_iff, htr])]
        obtain ⟨k, hk⟩ := ih ((a :: tl).drop (calculateReadSize opts bufLen st.totalRead))
          { totalRead := st.totalRead +
              ((a :: tl).take (calculateReadSize opts bufLen st.totalRead)).length,
            trimBuffer := st.trimBuffer ++
              (a :: tl).take (calculateReadSize opts bufLen st.totalRead),
            out := st.out }
        refine ⟨((a :: tl).take (calculateReadSize opts bufLen st.totalRead)).length + k, ?_⟩
        rw [hk]
        have hlen := List.length_take (calculateReadSize opts bufLen st.totalRead) (a :: tl)
        simp only [Prod.mk.injEq, LoopSt.mk.injEq]
        refine ⟨⟨by omega, ?_, trivial⟩, ?_⟩
        · rw [List.append_assoc]
          congr 1
          by_cases hcl : calculateReadSize opts bufLen st.totalRead ≤ (a :: tl).length
          · have hn : ((a :: tl).take (calculateReadSize opts bufLen st.totalRead)).length
                = calculateReadSize opts bufLen st.totalRead := by omega
            rw [hn, List.take_add]
          · have hle2 : (a :: tl).length ≤ calculateReadSize opts bufLen st.totalRead := by
              omega
            rw [List.take_of_length_le hle2, List.drop_eq_nil_of_le hle2, List.take_nil,
              List.append_nil, List.take_of_length_le (by omega)]
        · by_cases hcl : calculateReadSize opts bufLen st.totalRead ≤ (a :: tl).length
          · have hn : ((a :: tl).take (calculateReadSize opts bufLen st.totalRead)).length
                = calculateReadSize opts bufLen st.totalRead := by omega
            rw [hn, List.drop_drop]
          · have hle2 : (a :: tl).length ≤ calculateReadSize opts bufLen st.totalRead := by
              omega
            rw [List.drop_eq_nil_of_le hle2, List.drop_nil]
            exact (List.drop_eq_nil_of_le (by omega)).symm

/-- C1: under blockSize 1 with trim_spaces requested, the read loop
writes nothing and accumulates every block it reads into the trim buffer
(the final state is exactly totalRead = k bytes read, trim buffer = the
first k source bytes, empty output), and the whole run converts and
writes the accumulated buffer exactly once at finalize; in particular
input "  hi there  " with conversions [trim_spaces] yields "hi there",
not a per-byte trim. -/
theorem trim_mode_accumulates (opts : Options) (src : List Nat)
    (h1 : opts.blockSize = 1) (h2 : "trim_spaces" ∈ opts.conv) :
    (∃ k, processLoop opts (effBlockSize opts) (src.length + 1) src ⟨0, [], []⟩
        = (⟨k, src.take k, []⟩, src.drop k)) ∧
    processData src opts
      = applyConversions
          (processLoop opts (effBlockSize opts) (src.length + 1) src
            ⟨0, [], []⟩).1.trimBuffer opts.conv ∧
    processData (bytesOfString "  hi there  ") ⟨0, 0, 1, ["trim_spaces"]⟩
      = bytesOfString "hi there" := by
  obtain ⟨k, hk⟩ := processLoop_trim_acc opts (effBlockSize opts) h1 h2
    (src.length + 1) src ⟨0, [], []⟩
  simp only [List.nil_append] at hk
  refine ⟨⟨k, by simpa using hk⟩, ?_, by decide⟩
  have hpd : processData src opts =
      (finalizeTrimProcessing opts
        (processLoop opts (effBlockSize opts) (src.length + 1) src
          ⟨0, [], []⟩).1).out := rfl
  rw [hpd, hk]
  dsimp only
  unfold finalizeTrimProcessing
  split_ifs with hcond
  · simp
  · have hlen0 : src.take k = [] := by
      by_contra hne
      exact hcond ⟨h1, h2, by simpa using List.length_pos.mpr hne⟩
    simp [hlen0, applyConversions_nil]

/-- Witness for C1 at the concrete scenario input. -/
theorem trim_mode_accumulates_witness :
    processData (bytesOfString "  hi there  ") ⟨0, 0, 1, ["trim_spaces"]⟩
      = bytesOfString "hi there" :=
  (trim_mode_accumulates ⟨0, 0, 1, ["trim_spaces"]⟩ (bytesOfString " a ") rfl
    (by decide)).2.2

/-- C10: when a single read call returns bytes together with an error,
the bytes are processed first — routed to the sink write or to the trim
accumulation buffer, and counted in totalRead — and only then does the
error take effect: io.EOF ends the loop cleanly (the run proceeds to
finalize and can still succeed), while any other error aborts the run
with the "read data error" context after the partial processing. -/
theorem bytes_processed_before_read_error (opts : Options) (bufLen : Nat)
    (st : LoopSt) (chunk : List Nat) (rest : List (List Nat × Option ReadErr))
    (m : String) (hchunk : chunk ≠ [])
    (htr : calculateReadSize opts bufLen st.totalRead ≠ 0) :
    (processLoopScript opts bufLen ((chunk, some ReadErr.eof) :: rest) st
        = (routeChunk opts st chunk, none)) ∧
    (processLoopScript opts bufLen ((chunk, some (ReadErr.other m)) :: rest) st
        = (routeChunk opts st chunk, some ("read data error: " ++ m))) ∧
    (routeChunk opts st chunk).totalRead = st.totalRead + chunk.length ∧
    ((opts.blockSize = 1 ∧ "trim_spaces" ∈ opts.conv) →
      (routeChunk opts st chunk).trimBuffer = st.trimBuffer ++ chunk ∧
      (routeChunk opts st chunk).out = st.out) ∧
    (¬(opts.blockSize = 1 ∧ "trim_spaces" ∈ opts.conv) →
      (routeChunk opts st chunk).out = st.out ++ applyConversions chunk opts.conv ∧
      (routeChunk opts st chunk).trimBuffer = st.trimBuffer) ∧
    (calculateReadSize opts (effBlockSize opts) 0 ≠ 0 →
      (processDataScript opts ((chunk, some ReadErr.eof) :: rest)).2 = none ∧
      (processDataScript opts ((chunk, some (ReadErr.other m)) :: rest)).2
        = some ("read data error: " ++ m)) := by
  refine ⟨?_, ?_, routeChunk_totalRead opts st chunk, fun hc => ?_, fun hc => ?_,
    fun htr2 => ?_⟩
  · simp [processLoopScript, readAndProcess, htr]
  · simp [processLoopScript, readAndProcess, htr]
  · rw [routeChunk_trim opts st chunk hc hchunk]
    exact ⟨rfl, rfl⟩
  · rw [routeChunk_stream opts st chunk hc hchunk]
    exact ⟨rfl, rfl⟩
  · constructor
    · unfold processDataScript
      have hloop : processLoopScript opts (effBlockSize opts)
          ((chunk, some ReadErr.eof) :: rest) ⟨0, [], []⟩
            = (routeChunk opts ⟨0, [], []⟩ chunk, none) := by
        simp [processLoopScript, readAndProcess, htr2]
      rw [hloop]
    · unfold processDataScript
      have hloop : processLoopScript opts (effBlockSize opts)
          ((chunk, some (ReadErr.other m)) :: rest) ⟨0, [], []⟩
            = (routeChunk opts ⟨0, [], []⟩ chunk,
               some ("read data error: " ++ m)) := by
        simp [processLoopScript, readAndProcess, htr2]
      rw [hloop]

/-- Witness for C10: a read that returns the byte 104 together with a
non-EOF error leaves the converted byte in the sink and aborts. -/
theorem bytes_processed_before_read_error_witness :
    (processDataScript ⟨0, 0, 4096, []⟩ [([104], some (ReadErr.other "boom"))]).2
      = some ("read data error: " ++ "boom") :=
  ((bytes_processed_before_read_error ⟨0, 0, 4096, []⟩ 4096 ⟨0, [], []⟩ [104] []
    "boom" (by decide) (by decide)).2.2.2.2.2 (by decide)).2

end DdCore
